import Mathlib

/-!
Verification of the Be_AI experience-recommendation engine.

This file is a shallow embedding, in Lean 4, of the algorithmic core of the
repository: the interaction-preprocessing pipeline
(`scripts/preprocess_interactions.py`), the SGD matrix-factorization model
(`recommender/collaborative_filtering.py`, `scripts/train_cf_model.py`), the
implicit-feedback ALS model (`scripts/train_als_model.py`), and the
cache/interaction services (`services/interaction_service.py`,
`services/recommendation_service.py`).  Python floats are modelled by `ℚ`
(the claims under study are algebraic, not about rounding), numpy arrays by
lists or functions out of `Fin n`, raised exceptions by `Option`/`Except`,
and the MongoDB / Redis collaborators by explicit state passing.
-/

namespace BeAI

/-! ## Preprocessing pipeline (`scripts/preprocess_interactions.py`) -/

/-- Raw interaction record as stored in the `interactions` collection.
`rating` is `Optional` in the source; the `created_at` timestamp is an
abstract `Nat`.  Records with an empty `user_id` or `experience_id` are
skipped by `process_interactions`. -/
structure RawInteraction where
  user_id : String
  experience_id : String
  interaction_type : String
  rating : Option ℚ
  booked : Bool
  completed : Bool
  created_at : Nat
  deriving DecidableEq, Repr

/-- Embedding of the final `elif` chain of
`InteractionPreprocessor.convert_to_implicit_rating`
(`scripts/preprocess_interactions.py` lines 89-96): the interaction-type
table actually present in the code.  Note the source has no branch for
`'booking'` or `'completed'` interaction types; both fall through to the
default `1.0`. -/
def typeWeight (t : String) : ℚ :=
  if t = "wishlist" then 3
  else if t = "click" then 2
  else if t = "view" then 1
  else 1

/-- Embedding of `InteractionPreprocessor.convert_to_implicit_rating`
(`scripts/preprocess_interactions.py` lines 65-96). -/
def convert_to_implicit_rating (i : RawInteraction) : ℚ :=
  if i.completed then 5
  else if i.booked then 5
  else
    match i.rating with
    | some r => if 0 < r then r else typeWeight i.interaction_type
    | none => typeWeight i.interaction_type

/-- One row of the aggregated rating table (`df_agg` in
`process_interactions`). -/
structure AggRow where
  user_id : String
  experience_id : String
  rating : ℚ
  created_at : Nat
  deriving DecidableEq, Repr

/-- First phase of `process_interactions`: map each record to a row,
skipping records whose `user_id` or `experience_id` is empty
(`scripts/preprocess_interactions.py` lines 111-126). -/
def toRatingRows (raw : List RawInteraction) : List AggRow :=
  raw.filterMap fun i =>
    if i.user_id = "" ∨ i.experience_id = "" then none
    else some ⟨i.user_id, i.experience_id, convert_to_implicit_rating i, i.created_at⟩

/-- Whether two aggregated rows carry the same `(user_id, experience_id)`
group key. -/
def samePair (a b : AggRow) : Prop :=
  a.user_id = b.user_id ∧ a.experience_id = b.experience_id

instance : DecidablePred fun p : AggRow × AggRow => samePair p.1 p.2 := by
  intro p; unfold samePair; infer_instance

instance (a b : AggRow) : Decidable (samePair a b) := by
  unfold samePair; infer_instance

/-- Merge row `r` into an existing row `s` of the same group: maximum
rating and latest timestamp, per the `agg({'rating':'max',
'created_at':'max'})` call. -/
def aggUpd (r s : AggRow) : AggRow :=
  if samePair s r then
    { s with rating := max s.rating r.rating,
             created_at := max s.created_at r.created_at }
  else s

/-- One step of the `groupby(['user_id','experience_id']).agg(...)`
aggregation: fold a row into the accumulated table
(`scripts/preprocess_interactions.py` lines 140-143). -/
def aggStep (acc : List AggRow) (r : AggRow) : List AggRow :=
  if acc.any fun s => decide (samePair s r) then acc.map (aggUpd r)
  else acc ++ [r]

/-- The pandas `groupby` + `max` aggregation over `(user_id, experience_id)`
pairs: one output row per observed pair (group order is irrelevant to the
claims; we keep first-occurrence order). -/
def aggregate (rows : List AggRow) : List AggRow :=
  rows.foldl aggStep []

/-- Embedding of `InteractionPreprocessor.process_interactions`. -/
def process_interactions (raw : List RawInteraction) : List AggRow :=
  aggregate (toRatingRows raw)

/-- Number of surviving rows for a user (`df['user_id'].value_counts()`). -/
def userCount (df : List AggRow) (u : String) : Nat :=
  df.countP fun r => r.user_id == u

/-- Number of surviving rows for an experience. -/
def itemCount (df : List AggRow) (e : String) : Nat :=
  df.countP fun r => r.experience_id == e

/-- One pass of the body of the `while True` loop in
`InteractionPreprocessor.filter_sparse_data`
(`scripts/preprocess_interactions.py` lines 168-176): keep exactly the rows
whose user and experience both currently meet the minimum interaction
counts. -/
def filterPass (minU minI : Nat) (df : List AggRow) : List AggRow :=
  df.filter fun r =>
    decide (minU ≤ userCount df r.user_id) && decide (minI ≤ itemCount df r.experience_id)

/-- The iteration structure of `filter_sparse_data`: run `filterPass`,
stop when the row count stops changing, and otherwise stop after the hard
cap (`if iteration > 50: break`, i.e. at most 51 passes).  `fuel` counts
the passes still allowed. -/
def filterLoop (minU minI : Nat) : Nat → Nat → List AggRow → List AggRow
  | 0, _, df => df
  | fuel + 1, prevSize, df =>
    if (filterPass minU minI df).length = prevSize then filterPass minU minI df
    else if fuel = 0 then filterPass minU minI df
    else filterLoop minU minI fuel (filterPass minU minI df).length (filterPass minU minI df)

/-- Embedding of `InteractionPreprocessor.filter_sparse_data`
(`scripts/preprocess_interactions.py` lines 149-201): up to 51 filtering
passes, exiting early on a fixed point of the row count. -/
def filter_sparse_data (minU minI : Nat) (df : List AggRow) : List AggRow :=
  filterLoop minU minI 51 df.length df

/-- The whole preprocessing pipeline, thresholds made explicit
(the script hardwires `MIN_USER_INTERACTIONS = MIN_EXPERIENCE_INTERACTIONS
= 1` at module level; `recommender/preprocessing.py` takes them as
constructor arguments). -/
def preprocess_pipeline (minU minI : Nat) (raw : List RawInteraction) : List AggRow :=
  filter_sparse_data minU minI (process_interactions raw)

/-! ### Preprocessing lemmas -/

theorem samePair_refl (a : AggRow) : samePair a a := ⟨rfl, rfl⟩

theorem samePair_trans {a b c : AggRow} (h1 : samePair a b) (h2 : samePair b c) :
    samePair a c := ⟨h1.1.trans h2.1, h1.2.trans h2.2⟩

/-- The per-row update inside `aggStep` never changes the user key. -/
theorem aggUpd_user_id (r s : AggRow) : (aggUpd r s).user_id = s.user_id := by
  unfold aggUpd; split <;> rfl

/-- The per-row update inside `aggStep` never changes the item key. -/
theorem aggUpd_experience_id (r s : AggRow) :
    (aggUpd r s).experience_id = s.experience_id := by
  unfold aggUpd; split <;> rfl

theorem samePair_aggUpd_left (r a b : AggRow) :
    samePair (aggUpd r a) b ↔ samePair a b := by
  unfold samePair
  rw [aggUpd_user_id, aggUpd_experience_id]

theorem samePair_aggUpd_right (r a b : AggRow) :
    samePair a (aggUpd r b) ↔ samePair a b := by
  unfold samePair
  rw [aggUpd_user_id, aggUpd_experience_id]

theorem pairwise_aggStep (acc : List AggRow) (r : AggRow)
    (h : List.Pairwise (fun a b => ¬ samePair a b) acc) :
    List.Pairwise (fun a b => ¬ samePair a b) (aggStep acc r) := by
  unfold aggStep
  by_cases hany : (acc.any fun s => decide (samePair s r)) = true
  · rw [if_pos hany, List.pairwise_map]
    refine h.imp ?_
    intro a b hab hsp
    apply hab
    rwa [samePair_aggUpd_left, samePair_aggUpd_right] at hsp
  · rw [if_neg hany, List.pairwise_append]
    refine ⟨h, List.pairwise_singleton _ _, ?_⟩
    intro a ha b hb hsp
    rw [List.mem_singleton] at hb
    subst hb
    apply hany
    rw [List.any_eq_true]
    exact ⟨a, ha, decide_eq_true hsp⟩

theorem pairwise_aggFold :
    ∀ (rows : List AggRow) (acc : List AggRow),
      List.Pairwise (fun a b => ¬ samePair a b) acc →
      List.Pairwise (fun a b => ¬ samePair a b) (rows.foldl aggStep acc)
  | [], _, h => h
  | r :: rows, acc, h => pairwise_aggFold rows (aggStep acc r) (pairwise_aggStep acc r h)

theorem aggStep_mem_key (acc : List AggRow) (r : AggRow) :
    ∀ s ∈ acc, ∃ t ∈ aggStep acc r, samePair t s := by
  intro s hs
  unfold aggStep
  by_cases hany : (acc.any fun s => decide (samePair s r)) = true
  · rw [if_pos hany]
    exact ⟨aggUpd r s, List.mem_map_of_mem _ hs,
      (samePair_aggUpd_left r s s).mpr (samePair_refl s)⟩
  · rw [if_neg hany]
    exact ⟨s, List.mem_append_left _ hs, samePair_refl s⟩

theorem aggStep_new_key (acc : List AggRow) (r : AggRow) :
    ∃ t ∈ aggStep acc r, samePair t r := by
  unfold aggStep
  by_cases hany : (acc.any fun s => decide (samePair s r)) = true
  · rw [if_pos hany]
    rw [List.any_eq_true] at hany
    obtain ⟨s, hs, hsp⟩ := hany
    rw [decide_eq_true_eq] at hsp
    exact ⟨aggUpd r s, List.mem_map_of_mem _ hs, (samePair_aggUpd_left r s r).mpr hsp⟩
  · rw [if_neg hany]
    exact ⟨r, List.mem_append_right _ (List.mem_singleton_self r), samePair_refl r⟩

theorem aggFold_mono :
    ∀ (rows : List AggRow) (acc : List AggRow) (s : AggRow),
      (∃ t ∈ acc, samePair t s) →
      ∃ t ∈ rows.foldl aggStep acc, samePair t s
  | [], _, _, h => h
  | r :: rows, acc, s, ⟨t, ht, htp⟩ => by
    obtain ⟨t2, ht2, ht2p⟩ := aggStep_mem_key acc r t ht
    exact aggFold_mono rows (aggStep acc r) s ⟨t2, ht2, samePair_trans ht2p htp⟩

theorem aggFold_keys :
    ∀ (rows : List AggRow) (acc : List AggRow) (x : AggRow),
      x ∈ rows → ∃ t ∈ rows.foldl aggStep acc, samePair t x := by
  intro rows
  induction rows with
  | nil => intro _ x hx; cases hx
  | cons r rows ih =>
    intro acc x hx
    rcases List.mem_cons.mp hx with hx | hx
    · subst hx
      exact aggFold_mono rows (aggStep acc x) x (aggStep_new_key acc x)
    · exact ih (aggStep acc r) x hx

theorem filterLoop_sublist (minU minI : Nat) (fuel : Nat) :
    ∀ (prevSize : Nat) (df : List AggRow),
      (filterLoop minU minI fuel prevSize df).Sublist df := by
  induction fuel with
  | zero => intro _ df; exact List.Sublist.refl df
  | succ fuel ih =>
    intro prevSize df
    rw [filterLoop]
    split
    · exact List.filter_sublist df
    · split
      · exact List.filter_sublist df
      · exact (ih _ _).trans (List.filter_sublist df)

theorem filterPass_fix_counts (minU minI : Nat) (df : List AggRow)
    (h : filterPass minU minI df = df) :
    ∀ r ∈ df, minU ≤ userCount df r.user_id ∧ minI ≤ itemCount df r.experience_id := by
  intro r hr
  have hp := (List.filter_eq_self.mp h) r hr
  rw [Bool.and_eq_true, decide_eq_true_eq, decide_eq_true_eq] at hp
  exact hp

/-! ### Claims C1 and C2 -/

/-- C1: the priority rule claims the interaction-type weight table assigns
`booking = completed = 5.0`, and the docstring of
`convert_to_implicit_rating` states the same rules (`booking: 5.0`,
`completed: 5.0`); but the code has no `elif` branch for these two
interaction types, so a record of type `'booking'` (or `'completed'`) with
no flags set and no explicit rating falls through to the default `1.0`
instead of `5.0`. -/
theorem convert_booking_type_yields_default :
    convert_to_implicit_rating ⟨"u1", "e1", "booking", none, false, false, 0⟩ = 1 ∧
    convert_to_implicit_rating ⟨"u1", "e1", "completed", none, false, false, 0⟩ = 1 ∧
    (1 : ℚ) ≠ 5 := by
  refine ⟨rfl, rfl, by norm_num⟩

/-- Raw record used in the C2 counterexample: edge `j` of a bipartite chain
whose left end has degree 1.  Each removed edge exposes the next, so the
filter loop needs 54 passes to converge but is capped at 51. -/
def chainEdge (j : Nat) : RawInteraction :=
  if j % 2 = 0 then ⟨toString (j / 2), toString (j / 2), "view", none, false, false, 0⟩
  else ⟨toString (j / 2 + 1), toString (j / 2), "view", none, false, false, 0⟩

/-- Concrete interaction set for the C2 counterexample: a 54-edge cascade
chain plus a stable 2-by-2 block keeping the right end at degree ≥ 2. -/
def c2raw : List RawInteraction :=
  (List.range 54).map chainEdge ++
    [⟨"27", "a", "view", none, false, false, 0⟩,
     ⟨"27", "b", "view", none, false, false, 0⟩,
     ⟨"w", "a", "view", none, false, false, 0⟩,
     ⟨"w", "b", "view", none, false, false, 0⟩]

set_option maxRecDepth 10000 in
set_option maxHeartbeats 2000000 in
/-- C2 counterexample: the filtering loop of `filter_sparse_data` stops
after 51 passes (`if iteration > 50: break`) even when the row count is
still changing, so on this 58-row input with thresholds 2/2 the output
still contains a row whose item occurs only once — the claimed minimum-count
invariant fails. -/
theorem preprocess_min_counts_counterexample :
    ¬ (∀ r ∈ preprocess_pipeline 2 2 c2raw,
        2 ≤ userCount (preprocess_pipeline 2 2 c2raw) r.user_id ∧
        2 ≤ itemCount (preprocess_pipeline 2 2 c2raw) r.experience_id) := by
  decide

/-- C2 (amended): the aggregated table has exactly one row per observed
`(user_id, experience_id)` pair (pairwise-distinct keys, and every pair of
a kept raw record is represented); the filtered output is a sublist of it
(hence still has at most one row per pair); and whenever the filtering loop
has reached its fixed point — one more `filterPass` changes nothing, which
is exactly the loop's convergence exit — every user and item in the output
meets the configured minimum row counts.  Only when the 51-pass cap fires
first can the minimum-count invariant fail (see the counterexample). -/
theorem preprocess_pipeline_props (raw : List RawInteraction) (minU minI : Nat) :
    List.Pairwise (fun a b => ¬ samePair a b) (process_interactions raw) ∧
    (∀ x ∈ toRatingRows raw, ∃ t ∈ process_interactions raw, samePair t x) ∧
    (preprocess_pipeline minU minI raw).Sublist (process_interactions raw) ∧
    (filterPass minU minI (preprocess_pipeline minU minI raw) = preprocess_pipeline minU minI raw →
      ∀ r ∈ preprocess_pipeline minU minI raw,
        minU ≤ userCount (preprocess_pipeline minU minI raw) r.user_id ∧
        minI ≤ itemCount (preprocess_pipeline minU minI raw) r.experience_id) := by
  refine ⟨pairwise_aggFold _ [] (List.Pairwise.nil), ?_, ?_, ?_⟩
  · intro x hx
    exact aggFold_keys _ [] x hx
  · exact filterLoop_sublist minU minI 51 _ _
  · intro hfix
    exact filterPass_fix_counts minU minI _ hfix

/-- Small concrete instance discharging the hypotheses of
`preprocess_pipeline_props`: a 2-user, 2-item, 4-row interaction set with
thresholds 2/2 on which the filter loop converges immediately. -/
def c2smallRaw : List RawInteraction :=
  [⟨"u1", "e1", "view", none, false, false, 0⟩,
   ⟨"u1", "e2", "click", none, false, false, 1⟩,
   ⟨"u2", "e1", "view", some 4, false, false, 2⟩,
   ⟨"u2", "e2", "wishlist", none, false, false, 3⟩]

/-- Witness for `preprocess_pipeline_props` at a concrete input. -/
theorem preprocess_pipeline_props_witness :
    ∀ r ∈ preprocess_pipeline 2 2 c2smallRaw,
      2 ≤ userCount (preprocess_pipeline 2 2 c2smallRaw) r.user_id ∧
      2 ≤ itemCount (preprocess_pipeline 2 2 c2smallRaw) r.experience_id :=
  (preprocess_pipeline_props c2smallRaw 2 2).2.2.2 (by decide)

/-! ## SGD matrix-factorization model
(`recommender/collaborative_filtering.py`, `scripts/train_cf_model.py`) -/

/-- Inner product of two numpy 1-D arrays (`np.dot`). -/
def dot (a b : List ℚ) : ℚ := (List.zipWith (· * ·) a b).sum

/-- In-memory state of `CollaborativeFilteringModel`: factor matrices as
row lists, biases, global mean, and the two fitted `LabelEncoder`s
represented by their (distinct) `classes_` lists. -/
structure CFModel where
  n_factors : Nat
  n_users : Nat
  n_items : Nat
  user_factors : List (List ℚ)
  item_factors : List (List ℚ)
  user_bias : List ℚ
  item_bias : List ℚ
  global_mean : ℚ
  user_classes : List String
  item_classes : List String
  is_trained : Bool
  deriving DecidableEq, Repr

/-- Embedding of `CollaborativeFilteringModel.predict_single`
(`recommender/collaborative_filtering.py` lines 190-202) for natural-number
indices, as used by `recommend_for_user`. -/
def predict_single (m : CFModel) (user_idx item_idx : Nat) : ℚ :=
  if m.n_users ≤ user_idx ∨ m.n_items ≤ item_idx then m.global_mean
  else
    m.global_mean + m.user_bias.getD user_idx 0 + m.item_bias.getD item_idx 0 +
      dot (m.user_factors.getD user_idx []) (m.item_factors.getD item_idx [])

/-- Semantics of indexing a numpy array of length `n` with a Python `int`:
indices in `[0, n)` address directly, indices in `[-n, 0)` address from the
end, anything else raises `IndexError` (modelled as `none`). -/
def npIdx (n : Nat) (i : Int) : Option Nat :=
  if 0 ≤ i then (if i < (n : Int) then some i.toNat else none)
  else (if -(n : Int) ≤ i then some (i + n).toNat else none)

/-- Embedding of `predict_single` for arbitrary `int` indices.  The source
only guards `user_idx >= self.n_users or item_idx >= self.n_items`, so a
negative index slips past the guard and hits numpy indexing, which wraps
within `[-n, 0)` and raises below `-n`. -/
def predict_single_int (m : CFModel) (user_idx item_idx : Int) : Option ℚ :=
  if (m.n_users : Int) ≤ user_idx ∨ (m.n_items : Int) ≤ item_idx then some m.global_mean
  else
    match npIdx m.user_bias.length user_idx, npIdx m.item_bias.length item_idx,
        npIdx m.user_factors.length user_idx, npIdx m.item_factors.length item_idx with
    | some bu, some bi, some fu, some fi =>
        some (m.global_mean + m.user_bias.getD bu 0 + m.item_bias.getD bi 0 +
          dot (m.user_factors.getD fu []) (m.item_factors.getD fi []))
    | _, _, _, _ => none

instance {ε α : Type} [DecidableEq ε] [DecidableEq α] :
    DecidableEq (Except ε α) := fun a b =>
  match a, b with
  | Except.error x, Except.error y =>
    if h : x = y then isTrue (congrArg Except.error h)
    else isFalse fun hc => h (Except.error.inj hc)
  | Except.ok x, Except.ok y =>
    if h : x = y then isTrue (congrArg Except.ok h)
    else isFalse fun hc => h (Except.ok.inj hc)
  | Except.error _, Except.ok _ => isFalse fun hc => Except.noConfusion hc
  | Except.ok _, Except.error _ => isFalse fun hc => Except.noConfusion hc

/-- Descending-score order on `(item_id, score)` pairs; `reverse=True`
sorting by `x[1]` in the source. -/
def scoreRel (a b : String × ℚ) : Prop := b.2 ≤ a.2

instance : DecidableRel scoreRel :=
  fun a b => inferInstanceAs (Decidable (b.2 ≤ a.2))

instance : IsTotal (String × ℚ) scoreRel := ⟨fun a b => le_total b.2 a.2⟩

instance : IsTrans (String × ℚ) scoreRel := ⟨fun _ _ _ h1 h2 => le_trans h2 h1⟩

/-- Embedding of `CollaborativeFilteringModel.recommend_for_user`
(`recommender/collaborative_filtering.py` lines 204-248).  A stable sort
with `reverse=True` on the score is modelled by `insertionSort scoreRel`;
`LabelEncoder.transform` of a fitted id is its position in the `classes_`
list. -/
def recommend_for_user (m : CFModel) (user_id : String) (top_k : Nat)
    (exclude_items : List String) : Except String (List (String × ℚ)) :=
  if m.is_trained = false then Except.error "Model is not trained yet"
  else if user_id ∈ m.user_classes then
    Except.ok
      ((((m.item_classes.filter fun it => !(exclude_items.contains it)).map
          fun it => (it, predict_single m (m.user_classes.indexOf user_id)
            (m.item_classes.indexOf it))).insertionSort scoreRel).take top_k)
  else Except.ok []

/-- Contents of the pickled model blob written by
`CollaborativeFilteringModel.save`. -/
structure ModelArtifact where
  user_factors : List (List ℚ)
  item_factors : List (List ℚ)
  user_bias : List ℚ
  item_bias : List ℚ
  global_mean : ℚ
  n_users : Nat
  n_items : Nat
  n_factors : Nat
  algorithm : String
  is_trained : Bool
  deriving DecidableEq, Repr

/-- Contents of the pickled encoder blob. -/
structure EncoderArtifact where
  user_classes : List String
  item_classes : List String
  deriving DecidableEq, Repr

/-- Embedding of `CollaborativeFilteringModel.load`
(`recommender/collaborative_filtering.py` lines 283-314): the source
unpickles both blobs and restores every field verbatim; it performs no
consistency check of any kind between the two artifacts. -/
def load (md : ModelArtifact) (ed : EncoderArtifact) : CFModel :=
  { n_factors := md.n_factors
    n_users := md.n_users
    n_items := md.n_items
    user_factors := md.user_factors
    item_factors := md.item_factors
    user_bias := md.user_bias
    item_bias := md.item_bias
    global_mean := md.global_mean
    user_classes := ed.user_classes
    item_classes := ed.item_classes
    is_trained := md.is_trained }

/-- Embedding of `CollaborativeFilteringModel._sgd_step`
(`recommender/collaborative_filtering.py` lines 67-99), restricted to the
entries it reads and writes: `bu = user_bias[u]`, `bi = item_bias[i]`,
`pu = user_factors[u]`, `qi = item_factors[i]`.  The lets mirror the
source's statement order, including the `user_factors_old` copy taken
before the user-factor write. -/
def sgd_step (gm lr reg : ℚ) (bu bi : ℚ) (pu qi : List ℚ) (r : ℚ) :
    ℚ × ℚ × List ℚ × List ℚ × ℚ :=
  let pred := gm + bu + bi + dot pu qi
  let error := r - pred
  let bu2 := bu + lr * (error - reg * bu)
  let bi2 := bi + lr * (error - reg * bi)
  let user_factors_old := pu
  let pu2 := List.zipWith (fun p q => p + lr * (error * q - reg * p)) pu qi
  let qi2 := List.zipWith (fun q p => q + lr * (error * p - reg * q)) qi user_factors_old
  (bu2, bi2, pu2, qi2, error ^ 2)

/-- The update rule exactly as the claim states it: `pred` is the raw
biased dot product, `error = rating - pred`, every parameter moves by
`lr * (error * co-factor - reg * param)` (co-factor `1` for biases), and
both factor updates read the factor values as they were at the start of
the step. -/
def sgd_step_spec (gm lr reg : ℚ) (bu bi : ℚ) (pu qi : List ℚ) (r : ℚ) :
    ℚ × ℚ × List ℚ × List ℚ × ℚ :=
  let pred := gm + bu + bi + dot pu qi
  let error := r - pred
  (bu + lr * (error * 1 - reg * bu),
   bi + lr * (error * 1 - reg * bi),
   List.zipWith (fun p q => p + lr * (error * q - reg * p)) pu qi,
   List.zipWith (fun q p => q + lr * (error * p - reg * q)) qi pu,
   error ^ 2)

/-- numpy `np.clip(x, 0, 1)`. -/
def clip01 (x : ℚ) : ℚ := min (max x 0) 1

/-- Embedding of `CollaborativeFilteringSVD._predict_single`
(`scripts/train_cf_model.py` lines 59-72): unlike the serving model, this
variant clips the prediction to `[0, 1]` before returning it. -/
def predict_single_train (nU nI : Nat) (gm : ℚ) (ub ib : List ℚ)
    (uf itf : List (List ℚ)) (u i : Nat) : ℚ :=
  if nU ≤ u ∨ nI ≤ i then gm
  else clip01 (gm + ub.getD u 0 + ib.getD i 0 + dot (uf.getD u []) (itf.getD i []))

/-- Embedding of `CollaborativeFilteringSVD._sgd_step`
(`scripts/train_cf_model.py` lines 74-93), at array level: this variant
computes its error from the clipped `_predict_single` value. -/
def sgd_step_train (nU nI : Nat) (gm lr reg : ℚ) (ub ib : List ℚ)
    (uf itf : List (List ℚ)) (u i : Nat) (r : ℚ) :
    List ℚ × List ℚ × List (List ℚ) × List (List ℚ) × ℚ :=
  let pred := predict_single_train nU nI gm ub ib uf itf u i
  let error := r - pred
  let ub2 := ub.set u (ub.getD u 0 + lr * (error - reg * ub.getD u 0))
  let ib2 := ib.set i (ib.getD i 0 + lr * (error - reg * ib.getD i 0))
  let user_factors_old := uf.getD u []
  let uf2 := uf.set u (List.zipWith (fun p q => p + lr * (error * q - reg * p))
    (uf.getD u []) (itf.getD i []))
  let itf2 := itf.set i (List.zipWith (fun q p => q + lr * (error * p - reg * q))
    (itf.getD i []) user_factors_old)
  (ub2, ib2, uf2, itf2, error ^ 2)

/-! ### Claims C3, C4, C6, C7 -/

/-- Model blob whose factor matrices have 2 user rows, paired below with an
encoder blob fitted on 3 users: a dimension mismatch. -/
def c3model : ModelArtifact :=
  ⟨[[1], [2]], [[1], [2], [3]], [0, 0], [0, 0, 0], 3, 2, 3, 1, "svd", true⟩

/-- Encoder blob with 3 user classes and 3 item classes. -/
def c3encoders : EncoderArtifact :=
  ⟨["u1", "u2", "u3"], ["i1", "i2", "i3"]⟩

/-- C3 counterexample: loading a model blob with 2 factor rows together
with an encoder fitted on 3 users is not rejected — `load` has no size
check at all — and the resulting instance is fully usable: it serves
recommendations for the encoder-only user `"u3"` (silently falling back to
`global_mean` scores because index 2 is out of the factor range). -/
theorem load_accepts_mismatched_artifacts :
    (load c3model c3encoders).user_factors.length = 2 ∧
    (load c3model c3encoders).user_classes.length = 3 ∧
    (load c3model c3encoders).is_trained = true ∧
    recommend_for_user (load c3model c3encoders) "u3" 2 [] =
      Except.ok [("i1", 3), ("i2", 3)] := by
  decide

/-- C3 (amended): `CollaborativeFilteringModel.load` performs no
validation whatsoever: it restores every model field and both encoder
class lists verbatim, for any pair of artifacts, mismatched or not. -/
theorem load_restores_verbatim (md : ModelArtifact) (ed : EncoderArtifact) :
    (load md ed).user_factors = md.user_factors ∧
    (load md ed).item_factors = md.item_factors ∧
    (load md ed).user_bias = md.user_bias ∧
    (load md ed).item_bias = md.item_bias ∧
    (load md ed).global_mean = md.global_mean ∧
    (load md ed).n_users = md.n_users ∧
    (load md ed).n_items = md.n_items ∧
    (load md ed).user_classes = ed.user_classes ∧
    (load md ed).item_classes = ed.item_classes ∧
    (load md ed).is_trained = md.is_trained :=
  ⟨rfl, rfl, rfl, rfl, rfl, rfl, rfl, rfl, rfl, rfl⟩

/-- C4: `recommend_for_user` raises `ValueError("Model is not trained
yet")` on an untrained model; returns the empty list (no error) for a user
id unknown to the fitted encoder; and otherwise returns `(item_id, score)`
pairs for non-excluded items only, sorted descending by score, truncated to
the *first* `top_k` of the descending order — every returned pair's score
dominates the score of every non-excluded item that was not returned —
with each score equal to `predict_single` at the encoded indices. -/
theorem recommend_for_user_props (m : CFModel) (uid : String) (k : Nat)
    (excl : List String) :
    (m.is_trained = false →
      recommend_for_user m uid k excl = Except.error "Model is not trained yet") ∧
    (m.is_trained = true → uid ∉ m.user_classes →
      recommend_for_user m uid k excl = Except.ok []) ∧
    (m.is_trained = true → uid ∈ m.user_classes →
      ∃ l, recommend_for_user m uid k excl = Except.ok l ∧
        l.length = min k (m.item_classes.filter fun it => !(excl.contains it)).length ∧
        List.Sorted scoreRel l ∧
        (∀ p ∈ l, p.1 ∈ m.item_classes ∧ p.1 ∉ excl ∧
          p.2 = predict_single m (m.user_classes.indexOf uid)
            (m.item_classes.indexOf p.1)) ∧
        (∀ p ∈ l, ∀ it ∈ m.item_classes, it ∉ excl → it ∉ l.map Prod.fst →
          predict_single m (m.user_classes.indexOf uid)
            (m.item_classes.indexOf it) ≤ p.2)) := by
  refine ⟨?_, ?_, ?_⟩
  · intro h
    simp [recommend_for_user, h]
  · intro ht hn
    simp [recommend_for_user, ht, hn]
  · intro ht hu
    refine ⟨(((m.item_classes.filter fun it => !(excl.contains it)).map
        fun it => (it, predict_single m (m.user_classes.indexOf uid)
          (m.item_classes.indexOf it))).insertionSort scoreRel).take k,
      ?_, ?_, ?_, ?_, ?_⟩
    · simp [recommend_for_user, ht, hu]
    · rw [List.length_take, (List.perm_insertionSort scoreRel _).length_eq,
        List.length_map]
    · exact List.Pairwise.sublist (List.take_sublist _ _)
        (List.sorted_insertionSort scoreRel _)
    · intro p hp
      have hp2 := List.mem_of_mem_take hp
      rw [(List.perm_insertionSort scoreRel _).mem_iff] at hp2
      obtain ⟨it, hit, rfl⟩ := List.mem_map.mp hp2
      obtain ⟨hit1, hit2⟩ := List.mem_filter.mp hit
      refine ⟨hit1, ?_, rfl⟩
      simpa using hit2
    · intro p hp it hitmem hitexcl hitnotret
      set S := ((m.item_classes.filter fun it => !(excl.contains it)).map
          fun it => (it, predict_single m (m.user_classes.indexOf uid)
            (m.item_classes.indexOf it))).insertionSort scoreRel with hS
      have hfil : it ∈ m.item_classes.filter fun it => !(excl.contains it) :=
        List.mem_filter.mpr ⟨hitmem, by simpa using hitexcl⟩
      have hpsorted : (it, predict_single m (m.user_classes.indexOf uid)
            (m.item_classes.indexOf it)) ∈ S := by
        rw [hS]
        exact (List.perm_insertionSort scoreRel _).mem_iff.mpr
          (List.mem_map_of_mem _ hfil)
      have hdrop : (it, predict_single m (m.user_classes.indexOf uid)
            (m.item_classes.indexOf it)) ∈ S.drop k := by
        rcases List.mem_append.mp
            ((List.take_append_drop k S) ▸ hpsorted) with hin | hin
        · exact absurd (List.mem_map_of_mem Prod.fst hin) hitnotret
        · exact hin
      have hsortpw : List.Pairwise scoreRel S := by
        rw [hS]
        exact List.sorted_insertionSort scoreRel _
      have hsplit := List.pairwise_append.mp
        ((List.take_append_drop k S) ▸ hsortpw)
      exact hsplit.2.2 p hp _ hdrop

/-- Small trained model used to instantiate the recommendation theorems. -/
def cfm1 : CFModel :=
  ⟨1, 2, 2, [[1], [0]], [[1], [2]], [0, 0], [0, 0], 0,
    ["u1", "u2"], ["i1", "i2"], true⟩

/-- Witness for `recommend_for_user_props` at a concrete trained model. -/
theorem recommend_for_user_props_witness :
    ∃ l, recommend_for_user cfm1 "u1" 1 ["i1"] = Except.ok l ∧
      l.length = min 1 (cfm1.item_classes.filter fun it => !(["i1"].contains it)).length ∧
      List.Sorted scoreRel l ∧
      (∀ p ∈ l, p.1 ∈ cfm1.item_classes ∧ p.1 ∉ ["i1"] ∧
        p.2 = predict_single cfm1 (cfm1.user_classes.indexOf "u1")
          (cfm1.item_classes.indexOf p.1)) ∧
      (∀ p ∈ l, ∀ it ∈ cfm1.item_classes, it ∉ ["i1"] → it ∉ l.map Prod.fst →
        predict_single cfm1 (cfm1.user_classes.indexOf "u1")
          (cfm1.item_classes.indexOf it) ≤ p.2) :=
  (recommend_for_user_props cfm1 "u1" 1 ["i1"]).2.2 rfl (by decide)

/-- C6 counterexample: at a state where the raw biased dot product is `2`,
`CollaborativeFilteringSVD._sgd_step` (train_cf_model.py) clips the
prediction to `1` before computing the error, so its user-bias update is
`-1` where the claimed formulas (raw prediction, as implemented by the
serving model and stated in the spec) give `-2`. -/
theorem sgd_step_train_clipped_counterexample :
    (sgd_step_train 1 1 2 1 0 [0] [0] [[0]] [[0]] 0 0 0).1 = [-1] ∧
    (sgd_step_spec 2 1 0 0 0 [0] [0] 0).1 = -2 ∧
    (sgd_step_train 1 1 2 1 0 [0] [0] [[0]] [[0]] 0 0 0).1.getD 0 0 ≠
      (sgd_step_spec 2 1 0 0 0 [0] [0] 0).1 := by
  refine ⟨?_, ?_, ?_⟩ <;>
    norm_num [sgd_step_train, sgd_step_spec, predict_single_train, clip01, dot,
      min_def, max_def]

/-- C6 (amended): the serving model's `_sgd_step` computes exactly the
claimed simultaneous update (raw prediction, error co-factors, old
user-factor value in the item-factor update); the training-script variant
computes the same simultaneous update except that its error is derived
from the `[0,1]`-clipped prediction. -/
theorem sgd_step_simultaneous (gm lr reg bu bi : ℚ) (pu qi : List ℚ) (r : ℚ)
    (nU nI u i : Nat) (hu : u < nU) (hi : i < nI)
    (ub ib : List ℚ) (uf itf : List (List ℚ)) :
    sgd_step gm lr reg bu bi pu qi r = sgd_step_spec gm lr reg bu bi pu qi r ∧
    sgd_step_train nU nI gm lr reg ub ib uf itf u i r =
      (let error := r - clip01 (gm + ub.getD u 0 + ib.getD i 0 +
          dot (uf.getD u []) (itf.getD i []));
        (ub.set u (ub.getD u 0 + lr * (error * 1 - reg * ub.getD u 0)),
         ib.set i (ib.getD i 0 + lr * (error * 1 - reg * ib.getD i 0)),
         uf.set u (List.zipWith (fun p q => p + lr * (error * q - reg * p))
           (uf.getD u []) (itf.getD i [])),
         itf.set i (List.zipWith (fun q p => q + lr * (error * p - reg * q))
           (itf.getD i []) (uf.getD u [])),
         error ^ 2)) := by
  constructor
  · unfold sgd_step sgd_step_spec
    simp [mul_one]
  · unfold sgd_step_train predict_single_train
    rw [if_neg]
    · simp [mul_one]
    · rintro (h | h) <;> omega

/-- Witness for `sgd_step_simultaneous` at concrete inputs. -/
theorem sgd_step_simultaneous_witness :
    sgd_step 2 1 0 0 0 [0] [0] 0 = sgd_step_spec 2 1 0 0 0 [0] [0] 0 :=
  (sgd_step_simultaneous 2 1 0 0 0 [0] [0] 0 1 1 0 0 (by decide) (by decide)
    [0] [0] [[0]] [[0]]).1

/-- Trained 1-user, 1-item model with a nonzero user bias, used to exhibit
the negative-index behaviour of `predict_single`. -/
def cfm2 : CFModel :=
  ⟨1, 1, 1, [[1]], [[1]], [1], [0], 0, ["u1"], ["i1"], true⟩

/-- C7 counterexample: `predict_single` only guards
`user_idx >= n_users or item_idx >= n_items`, so the negative index `-1`
slips past the guard and numpy serves the *last* row (yielding `2`, not
`global_mean = 0`), while `-2` is below `-n_users` and raises
`IndexError` — contradicting both "returns global_mean whenever either
index is out of the fitted range" and "never raises for any integer index
pair". -/
theorem predict_single_int_counterexample :
    predict_single_int cfm2 (-2) 0 = none ∧
    predict_single_int cfm2 (-1) 0 = some 2 ∧
    cfm2.global_mean = 0 ∧ (2 : ℚ) ≠ 0 := by
  refine ⟨?_, ?_, rfl, by norm_num⟩ <;>
    norm_num [predict_single_int, npIdx, cfm2, dot]

/-- C7 (amended): for a dimensionally consistent trained model,
`predict_single` returns `global_mean` when either index is `≥` the fitted
count; returns the biased dot product for indices inside
`[0,n_users) × [0,n_items)`; wraps a negative user index within
`[-n_users, 0)` to `n_users + u` (numpy semantics); and raises (returns
`none`) when the user index is below `-n_users`. -/
theorem predict_single_int_props (m : CFModel)
    (hub : m.user_bias.length = m.n_users) (hib : m.item_bias.length = m.n_items)
    (huf : m.user_factors.length = m.n_users)
    (hif : m.item_factors.length = m.n_items) (u i : Int) :
    ((m.n_users : Int) ≤ u ∨ (m.n_items : Int) ≤ i →
      predict_single_int m u i = some m.global_mean) ∧
    (0 ≤ u → u < (m.n_users : Int) → 0 ≤ i → i < (m.n_items : Int) →
      predict_single_int m u i = some (m.global_mean +
        m.user_bias.getD u.toNat 0 + m.item_bias.getD i.toNat 0 +
        dot (m.user_factors.getD u.toNat []) (m.item_factors.getD i.toNat []))) ∧
    (-(m.n_users : Int) ≤ u → u < 0 → 0 ≤ i → i < (m.n_items : Int) →
      predict_single_int m u i = some (m.global_mean +
        m.user_bias.getD (u + m.n_users).toNat 0 + m.item_bias.getD i.toNat 0 +
        dot (m.user_factors.getD (u + m.n_users).toNat [])
          (m.item_factors.getD i.toNat []))) ∧
    (u < -(m.n_users : Int) → i < (m.n_items : Int) →
      predict_single_int m u i = none) := by
  refine ⟨?_, ?_, ?_, ?_⟩
  · intro h
    rw [predict_single_int, if_pos h]
  · intro hu0 hun hi0 hin
    have hc : ¬ ((m.n_users : Int) ≤ u ∨ (m.n_items : Int) ≤ i) := by
      rintro (h | h) <;> omega
    rw [predict_single_int, if_neg hc]
    simp [npIdx, hub, hib, huf, hif, hu0, hun, hi0, hin]
  · intro hun hu0 hi0 hin
    have hc : ¬ ((m.n_users : Int) ≤ u ∨ (m.n_items : Int) ≤ i) := by
      rintro (h | h) <;> omega
    have hx : ¬ (0 : Int) ≤ u := by omega
    rw [predict_single_int, if_neg hc]
    simp [npIdx, hub, hib, huf, hif, hx, hun, hi0, hin]
  · intro hun hin
    have hc : ¬ ((m.n_users : Int) ≤ u ∨ (m.n_items : Int) ≤ i) := by
      rintro (h | h) <;> omega
    have hx : ¬ (0 : Int) ≤ u := by omega
    have hy : ¬ -((m.n_users : Nat) : Int) ≤ u := by omega
    rw [predict_single_int, if_neg hc]
    simp [npIdx, hub, hib, huf, hif, hx, hy]

/-- Witness for `predict_single_int_props` at concrete indices. -/
theorem predict_single_int_props_witness :
    predict_single_int cfm2 5 0 = some cfm2.global_mean ∧
    predict_single_int cfm2 0 0 = some (cfm2.global_mean +
      cfm2.user_bias.getD (0 : Int).toNat 0 + cfm2.item_bias.getD (0 : Int).toNat 0 +
      dot (cfm2.user_factors.getD (0 : Int).toNat [])
        (cfm2.item_factors.getD (0 : Int).toNat [])) :=
  ⟨(predict_single_int_props cfm2 rfl rfl rfl rfl 5 0).1 (by decide),
   (predict_single_int_props cfm2 rfl rfl rfl rfl 0 0).2.1
     (by decide) (by decide) (by decide) (by decide)⟩

/-! ## Implicit ALS model (`scripts/train_als_model.py`) -/

/-- State of `ImplicitALS`: the two factor matrices as row lists. -/
structure ALSModel where
  factors : Nat
  user_factors : List (List ℚ)
  item_factors : List (List ℚ)
  deriving DecidableEq, Repr

/-- Descending order on `(item_index, score)` pairs, with `-np.inf`
modelled as `⊥` of `WithBot ℚ`. -/
def alsRel (a b : Nat × WithBot ℚ) : Prop := b.2 ≤ a.2

instance : DecidableRel alsRel :=
  fun a b => inferInstanceAs (Decidable (b.2 ≤ a.2))

instance : IsTotal (Nat × WithBot ℚ) alsRel := ⟨fun a b => le_total b.2 a.2⟩

instance : IsTrans (Nat × WithBot ℚ) alsRel := ⟨fun _ _ _ h1 h2 => le_trans h2 h1⟩

/-- The `scores` array inside `ImplicitALS.recommend` after the
`scores[liked_items] = -np.inf` assignment: entry `i` is the dot product
of the user row with item row `i`, or `⊥` when filtering is on and `i` is
in the user's interacted row. -/
def alsScoresList (m : ALSModel) (user_idx : Nat) (seenRow : List Nat)
    (filterSeen : Bool) : List (WithBot ℚ) :=
  ((m.item_factors.map fun y => dot (m.user_factors.getD user_idx []) y).enum.map
    fun p => if filterSeen ∧ p.1 ∈ seenRow then (⊥ : WithBot ℚ) else (p.2 : WithBot ℚ))

/-- Embedding of `ImplicitALS.recommend`
(`scripts/train_als_model.py` lines 119-144).  The
`np.argpartition(scores, -N)[-N:]` slice re-sorted descending is realized
as a stable descending sort of all `(index, score)` pairs followed by
`take N` — the same top-N selection and descending order, fixing the tie
order that `argpartition` leaves unspecified. -/
def als_recommend (m : ALSModel) (user_idx : Nat) (seenRow : List Nat) (N : Nat)
    (filterSeen : Bool) : List Nat × List (WithBot ℚ) :=
  let scores := alsScoresList m user_idx seenRow filterSeen
  if min N scores.length = 0 then ([], [])
  else
    (((scores.enum.insertionSort alsRel).take (min N scores.length)).map Prod.fst,
     ((scores.enum.insertionSort alsRel).take (min N scores.length)).map Prod.snd)

/-- The score the code assigns to item index `i` (spelled pointwise). -/
def alsScoreFn (m : ALSModel) (user_idx : Nat) (seenRow : List Nat)
    (filterSeen : Bool) (i : Nat) : WithBot ℚ :=
  if filterSeen ∧ i ∈ seenRow then (⊥ : WithBot ℚ)
  else ((dot (m.user_factors.getD user_idx []) (m.item_factors.getD i [])) : WithBot ℚ)

theorem alsScoresList_length (m : ALSModel) (u : Nat) (seen : List Nat) (fs : Bool) :
    (alsScoresList m u seen fs).length = m.item_factors.length := by
  simp [alsScoresList]

theorem alsScoresList_getElem? (m : ALSModel) (u : Nat) (seen : List Nat) (fs : Bool)
    (i : Nat) (h : i < m.item_factors.length) :
    (alsScoresList m u seen fs)[i]? = some (alsScoreFn m u seen fs i) := by
  have hl : i < (alsScoresList m u seen fs).length := by
    rwa [alsScoresList_length]
  rw [List.getElem?_eq_getElem hl]
  simp only [alsScoresList, alsScoreFn, List.getElem_map, List.getElem_enum]
  rw [List.getD_eq_getElem m.item_factors [] h]

theorem alsScoresList_enum_mem (m : ALSModel) (u : Nat) (seen : List Nat) (fs : Bool) :
    ∀ p ∈ (alsScoresList m u seen fs).enum,
      p.1 < m.item_factors.length ∧ p.2 = alsScoreFn m u seen fs p.1 := by
  intro p hp
  rw [List.mem_enum_iff_getElem?] at hp
  have h1 : p.1 < (alsScoresList m u seen fs).length := by
    by_contra hc
    rw [List.getElem?_eq_none (le_of_not_lt hc)] at hp
    cases hp
  have h2 : p.1 < m.item_factors.length := by
    rwa [alsScoresList_length] at h1
  refine ⟨h2, ?_⟩
  rw [alsScoresList_getElem? m u seen fs p.1 h2] at hp
  exact (Option.some.inj hp).symm

theorem alsScoresList_enum_mem_of_lt (m : ALSModel) (u : Nat) (seen : List Nat)
    (fs : Bool) (i : Nat) (h : i < m.item_factors.length) :
    (i, alsScoreFn m u seen fs i) ∈ (alsScoresList m u seen fs).enum := by
  rw [List.mem_enum_iff_getElem?]
  exact alsScoresList_getElem? m u seen fs i h

/-- C5: `ImplicitALS.recommend` returns empty arrays when `top_k` resolves
to zero available items; otherwise it returns `min N n_items` distinct
item indices whose scores dominate every non-selected item, together with
their scores in descending order, where the score of item `i` is the user
row's dot product with item row `i`, replaced by `-inf` for
already-interacted items when filtering is enabled. -/
theorem als_recommend_props (m : ALSModel) (u : Nat) (seen : List Nat) (N : Nat)
    (fs : Bool) :
    (min N m.item_factors.length = 0 → als_recommend m u seen N fs = ([], [])) ∧
    (0 < min N m.item_factors.length →
      ∃ idxs scs, als_recommend m u seen N fs = (idxs, scs) ∧
        idxs.length = min N m.item_factors.length ∧
        idxs.Nodup ∧
        (∀ i ∈ idxs, i < m.item_factors.length) ∧
        scs = idxs.map (alsScoreFn m u seen fs) ∧
        List.Pairwise (fun a b : WithBot ℚ => b ≤ a) scs ∧
        (∀ i ∈ idxs, ∀ j, j < m.item_factors.length → j ∉ idxs →
          alsScoreFn m u seen fs j ≤ alsScoreFn m u seen fs i)) ∧
    (∀ i, alsScoreFn m u seen fs i =
      if fs ∧ i ∈ seen then (⊥ : WithBot ℚ)
      else ((dot (m.user_factors.getD u []) (m.item_factors.getD i [])) : WithBot ℚ)) := by
  have hlen := alsScoresList_length m u seen fs
  refine ⟨?_, ?_, fun i => rfl⟩
  · intro h0
    rw [als_recommend]
    rw [if_pos (by rwa [hlen])]
  · intro hpos
    have hne : ¬ min N (alsScoresList m u seen fs).length = 0 := by
      rw [hlen]; omega
    have hmem := alsScoresList_enum_mem m u seen fs
    set scores := alsScoresList m u seen fs with hscores
    set sorted := scores.enum.insertionSort alsRel with hsorted
    have hperm : sorted.Perm scores.enum := List.perm_insertionSort alsRel _
    have hsortlen : sorted.length = m.item_factors.length := by
      rw [hperm.length_eq, List.enum_length, hlen]
    set n := min N scores.length with hn
    have hnval : n = min N m.item_factors.length := by rw [hn, hlen]
    have hnle : n ≤ sorted.length := by
      rw [hsortlen, hnval]; omega
    have hsortmem : ∀ p ∈ sorted, p.1 < m.item_factors.length ∧
        p.2 = alsScoreFn m u seen fs p.1 := fun p hp => hmem p (hperm.mem_iff.mp hp)
    refine ⟨(sorted.take n).map Prod.fst, (sorted.take n).map Prod.snd, ?_, ?_, ?_, ?_, ?_, ?_, ?_⟩
    · rw [als_recommend, if_neg hne]
    · rw [List.length_map, List.length_take, hsortlen, ← hnval]
      omega
    · refine List.Nodup.sublist (List.Sublist.map Prod.fst (List.take_sublist n sorted)) ?_
      have : (sorted.map Prod.fst).Perm (scores.enum.map Prod.fst) :=
        List.Perm.map Prod.fst hperm
      rw [this.nodup_iff, List.enum_map_fst]
      exact List.nodup_range _
    · intro i hi
      obtain ⟨p, hp, rfl⟩ := List.mem_map.mp hi
      exact (hsortmem p (List.mem_of_mem_take hp)).1
    · rw [List.map_map]
      refine List.map_congr_left ?_
      intro p hp
      exact (hsortmem p (List.mem_of_mem_take hp)).2
    · have hsortpw : List.Pairwise alsRel sorted := List.sorted_insertionSort alsRel _
      exact List.Pairwise.map Prod.snd (fun a b hab => hab)
        (List.Pairwise.sublist (List.take_sublist n sorted) hsortpw)
    · intro i hi j hj hjn
      obtain ⟨p, hp, rfl⟩ := List.mem_map.mp hi
      have hjenum : (j, alsScoreFn m u seen fs j) ∈ scores.enum :=
        alsScoresList_enum_mem_of_lt m u seen fs j hj
      have hjsorted : (j, alsScoreFn m u seen fs j) ∈ sorted :=
        hperm.mem_iff.mpr hjenum
      have hjdrop : (j, alsScoreFn m u seen fs j) ∈ sorted.drop n := by
        rcases List.mem_append.mp
            ((List.take_append_drop n sorted) ▸ hjsorted) with hjt | hjd
        · exact absurd (List.mem_map_of_mem Prod.fst hjt) hjn
        · exact hjd
      have hsortpw : List.Pairwise alsRel sorted := List.sorted_insertionSort alsRel _
      have hsplit := List.pairwise_append.mp
        ((List.take_append_drop n sorted) ▸ hsortpw)
      have hrel := hsplit.2.2 p hp _ hjdrop
      have hp2 := (hsortmem p (List.mem_of_mem_take hp)).2
      rw [← hp2]
      exact hrel

/-- Concrete ALS model: 1 user with factor `[1]`, 3 items with factors
`[1]`, `[2]`, `[3]`. -/
def alsm1 : ALSModel := ⟨1, [[1]], [[1], [2], [3]]⟩

/-- Witness for `als_recommend_props` at concrete inputs. -/
theorem als_recommend_props_witness :
    als_recommend alsm1 0 [2] 0 true = ([], []) ∧
    (∃ idxs scs, als_recommend alsm1 0 [2] 2 true = (idxs, scs) ∧
      idxs.length = min 2 alsm1.item_factors.length ∧
      idxs.Nodup ∧
      (∀ i ∈ idxs, i < alsm1.item_factors.length) ∧
      scs = idxs.map (alsScoreFn alsm1 0 [2] true) ∧
      List.Pairwise (fun a b : WithBot ℚ => b ≤ a) scs ∧
      (∀ i ∈ idxs, ∀ j, j < alsm1.item_factors.length → j ∉ idxs →
        alsScoreFn alsm1 0 [2] true j ≤ alsScoreFn alsm1 0 [2] true i)) :=
  ⟨(als_recommend_props alsm1 0 [2] 0 true).1 (by decide),
   (als_recommend_props alsm1 0 [2] 2 true).2.1 (by decide)⟩

/-! ### ALS training half-iteration (`ImplicitALS._least_squares`) -/

/-- The precomputed Gram matrix `YtY = Y.T.dot(Y)`
(`scripts/train_als_model.py` line 86). -/
def ytY {mI k : Nat} (Y : Fin mI → Fin k → ℚ) : Matrix (Fin k) (Fin k) ℚ :=
  Matrix.of fun a b => ∑ j, Y j a * Y j b

/-- The per-row system matrix built by the source's loop:
`A = YtY + reg * eye(k)` followed by
`A += (confidence - 1) * outer(Y_u[i], Y_u[i])` for each stored entry
(`scripts/train_als_model.py` lines 107-111).  `entries` is the CSR row:
the `(item index, confidence)` pairs with stored (non-zero) confidence. -/
def rowA {mI k : Nat} (reg : ℚ) (Y : Fin mI → Fin k → ℚ)
    (entries : List (Fin mI × ℚ)) : Matrix (Fin k) (Fin k) ℚ :=
  entries.foldl
    (fun A e => A + (e.2 - 1) • Matrix.vecMulVec (Y e.1) (Y e.1))
    (ytY Y + reg • (1 : Matrix (Fin k) (Fin k) ℚ))

/-- The per-row right-hand side `b = Y_u.T.dot(Cu * Pu)` with `Pu` all
ones, i.e. `Σ c_i * y_i` (`scripts/train_als_model.py` lines 98, 114). -/
def rowB {mI k : Nat} (Y : Fin mI → Fin k → ℚ) (entries : List (Fin mI × ℚ)) :
    Fin k → ℚ :=
  fun a => (entries.map fun e => e.2 * Y e.1 a).sum

/-- Embedding of `ImplicitALS._least_squares`
(`scripts/train_als_model.py` lines 76-117): one ALS half-iteration.  Rows
with no stored confidence entries are skipped (`if len(items) == 0:
continue`, leaving `X[u]` unchanged); every other row is replaced by the
solution of `A x = b`, modelled exactly (over `ℚ`) by Cramer's rule; a
singular system makes `np.linalg.solve` raise `LinAlgError`, modelled as
`none`.  Each row's system depends only on the fixed side `Y` and the
confidence row, never on `X`, so the sequential in-place row updates of
the source equal this simultaneous form. -/
def least_squares {n mI k : Nat} (Cui : Fin n → List (Fin mI × ℚ))
    (X : Fin n → Fin k → ℚ) (Y : Fin mI → Fin k → ℚ) (reg : ℚ) :
    Option (Fin n → Fin k → ℚ) :=
  if _h : ∀ u, Cui u ≠ [] → (rowA reg Y (Cui u)).det ≠ 0 then
    some fun u =>
      if Cui u = [] then X u
      else ((rowA reg Y (Cui u)).det)⁻¹ • (rowA reg Y (Cui u)).cramer (rowB Y (Cui u))
  else none

theorem rowA_eq_sum {mI k : Nat} (reg : ℚ) (Y : Fin mI → Fin k → ℚ)
    (entries : List (Fin mI × ℚ)) :
    rowA reg Y entries = ytY Y + reg • (1 : Matrix (Fin k) (Fin k) ℚ) +
      (entries.map fun e => (e.2 - 1) • Matrix.vecMulVec (Y e.1) (Y e.1)).sum := by
  have key : ∀ (l : List (Fin mI × ℚ)) (A : Matrix (Fin k) (Fin k) ℚ),
      l.foldl (fun A e => A + (e.2 - 1) • Matrix.vecMulVec (Y e.1) (Y e.1)) A =
        A + (l.map fun e => (e.2 - 1) • Matrix.vecMulVec (Y e.1) (Y e.1)).sum := by
    intro l
    induction l with
    | nil => intro A; simp
    | cons e l ih => intro A; simp [ih, add_assoc]
  exact key entries _

/-- C8: in one ALS half-iteration, every row `u` with at least one stored
confidence entry is replaced by a solution `x` of `A x = b` with
`A = YtY + reg*I + Σ (c_ui - 1) y_i y_iᵗ` and `b = Σ c_ui y_i`; rows with
no stored entries are left unchanged; and the half-iteration can only fail
(raise) because some row *with* entries has a singular system — a fully
empty row never causes a failure. -/
theorem least_squares_props {n mI k : Nat} (Cui : Fin n → List (Fin mI × ℚ))
    (X : Fin n → Fin k → ℚ) (Y : Fin mI → Fin k → ℚ) (reg : ℚ) :
    (∀ X', least_squares Cui X Y reg = some X' →
      (∀ u, Cui u = [] → X' u = X u) ∧
      (∀ u, Cui u ≠ [] →
        (ytY Y + reg • (1 : Matrix (Fin k) (Fin k) ℚ) +
          ((Cui u).map fun e =>
            (e.2 - 1) • Matrix.vecMulVec (Y e.1) (Y e.1)).sum).mulVec (X' u) =
          rowB Y (Cui u))) ∧
    (least_squares Cui X Y reg = none →
      ∃ u, Cui u ≠ [] ∧ (rowA reg Y (Cui u)).det = 0) := by
  constructor
  · intro X' hX'
    rw [least_squares] at hX'
    split at hX'
    case isTrue hdet =>
      have hfun := Option.some.inj hX'
      constructor
      · intro u hu
        rw [← hfun]
        simp [hu]
      · intro u hu
        rw [← rowA_eq_sum]
        rw [← hfun]
        simp only [if_neg hu]
        have hd : (rowA reg Y (Cui u)).det ≠ 0 := hdet u hu
        rw [Matrix.mulVec_smul, Matrix.mulVec_cramer, smul_smul,
          inv_mul_cancel₀ hd, one_smul]
    case isFalse => cases hX'
  · intro hnone
    rw [least_squares] at hnone
    split at hnone
    case isTrue => cases hnone
    case isFalse hdet =>
      push_neg at hdet
      exact hdet

/-- Concrete half-iteration input for the witness: 2 user rows, 1 item,
1 latent factor; user row 0 has one stored confidence `41`, user row 1 is
fully empty. -/
def c8Cui : Fin 2 → List (Fin 1 × ℚ) :=
  fun u => if u = 0 then [(0, 41)] else []

/-- Initial user factors for the witness. -/
def c8X : Fin 2 → Fin 1 → ℚ := fun _ _ => 7

/-- Fixed item factors for the witness. -/
def c8Y : Fin 1 → Fin 1 → ℚ := fun _ _ => 1

/-- Witness for `least_squares_props`: on a confidence matrix with a fully
empty second row, the half-iteration succeeds and leaves that row
unchanged. -/
theorem least_squares_props_witness :
    ∃ X', least_squares c8Cui c8X c8Y 1 = some X' ∧ X' 1 = c8X 1 := by
  have hforall : ∀ u, c8Cui u ≠ [] → (rowA 1 c8Y (c8Cui u)).det ≠ 0 := by
    intro u hu
    have hu0 : u = 0 := by
      by_contra hne
      exact hu (by simp [c8Cui, hne])
    subst hu0
    rw [show c8Cui 0 = [(0, 41)] from rfl, rowA_eq_sum, Matrix.det_fin_one]
    simp [ytY, c8Y, Matrix.vecMulVec_apply]
    norm_num
  have hsome : least_squares c8Cui c8X c8Y 1 = some fun u =>
      if c8Cui u = [] then c8X u
      else ((rowA 1 c8Y (c8Cui u)).det)⁻¹ • (rowA 1 c8Y (c8Cui u)).cramer
        (rowB c8Y (c8Cui u)) := by
    rw [least_squares]
    exact dif_pos hforall
  exact ⟨_, hsome, ((least_squares_props c8Cui c8X c8Y 1).1 _ hsome).1 1 rfl⟩

/-! ## Interaction store (`services/interaction_service.py`) -/

/-- A document of the `interactions` collection. -/
structure InteractionDoc where
  user_id : String
  experience_id : String
  interaction_type : String
  rating : Option ℚ
  booked : Bool
  completed : Bool
  liked : Bool
  saved_to_wishlist : Bool
  created_at : Nat
  updated_at : Nat
  deriving DecidableEq, Repr

/-- The `InteractionCreate` request body (`schemas/__init__.py` 56-67). -/
structure InteractionCreate where
  experience_id : String
  interaction_type : String
  rating : Option ℚ
  booked : Bool
  completed : Bool
  liked : Bool
  saved_to_wishlist : Bool
  deriving DecidableEq, Repr

/-- The `find_one` filter of `create_interaction`: same
`(user_id, experience_id, interaction_type)` triple. -/
def sameTriple (d : InteractionDoc) (user_id : String) (req : InteractionCreate) : Prop :=
  d.user_id = user_id ∧ d.experience_id = req.experience_id ∧
    d.interaction_type = req.interaction_type

instance (d : InteractionDoc) (user_id : String) (req : InteractionCreate) :
    Decidable (sameTriple d user_id req) := by
  unfold sameTriple; infer_instance

/-- The `$set` update applied to an existing document
(`services/interaction_service.py` lines 40-59): `rating` is overwritten
only when the request carries one, and each flag is only ever set to
`True`, never cleared. -/
def applyUpdate (req : InteractionCreate) (now : Nat) (d : InteractionDoc) :
    InteractionDoc :=
  { d with
    updated_at := now
    rating := if req.rating.isSome then req.rating else d.rating
    booked := if req.booked then true else d.booked
    completed := if req.completed then true else d.completed
    liked := if req.liked then true else d.liked
    saved_to_wishlist := if req.saved_to_wishlist then true else d.saved_to_wishlist }

/-- The document built by the `insert_one` branch
(`services/interaction_service.py` lines 67-78). -/
def newDoc (user_id : String) (req : InteractionCreate) (now : Nat) : InteractionDoc :=
  ⟨user_id, req.experience_id, req.interaction_type, req.rating, req.booked,
    req.completed, req.liked, req.saved_to_wishlist, now, now⟩

/-- Apply `f` to the first element satisfying `p` (Mongo `find_one` by the
triple followed by `update_one` on that document's `_id`). -/
def updFirst (p : InteractionDoc → Bool) (f : InteractionDoc → InteractionDoc) :
    List InteractionDoc → List InteractionDoc
  | [] => []
  | d :: ds => if p d then f d :: ds else d :: updFirst p f ds

/-- Embedding of `InteractionService.create_interaction`
(`services/interaction_service.py` lines 20-97), acting on the interaction
collection as explicit state: update the first document matching the
triple if one exists, otherwise insert a new document. -/
def create_interaction (store : List InteractionDoc) (user_id : String)
    (req : InteractionCreate) (now : Nat) : List InteractionDoc :=
  if store.any fun d => decide (sameTriple d user_id req) then
    updFirst (fun d => decide (sameTriple d user_id req)) (applyUpdate req now) store
  else store ++ [newDoc user_id req now]

/-- Two documents with the same dedup key. -/
def tripleEq (a b : InteractionDoc) : Prop :=
  a.user_id = b.user_id ∧ a.experience_id = b.experience_id ∧
    a.interaction_type = b.interaction_type

instance (a b : InteractionDoc) : Decidable (tripleEq a b) := by
  unfold tripleEq; infer_instance

/-- At most one document per `(user_id, experience_id, interaction_type)`
triple. -/
def distinctTriples (store : List InteractionDoc) : Prop :=
  store.Pairwise fun a b => ¬ tripleEq a b

instance (store : List InteractionDoc) : Decidable (distinctTriples store) := by
  unfold distinctTriples; infer_instance

theorem applyUpdate_keys (req : InteractionCreate) (now : Nat) (d : InteractionDoc) :
    (applyUpdate req now d).user_id = d.user_id ∧
    (applyUpdate req now d).experience_id = d.experience_id ∧
    (applyUpdate req now d).interaction_type = d.interaction_type :=
  ⟨rfl, rfl, rfl⟩

theorem updFirst_length (p : InteractionDoc → Bool) (f : InteractionDoc → InteractionDoc) :
    ∀ l, (updFirst p f l).length = l.length
  | [] => rfl
  | d :: ds => by
    rw [updFirst]
    split
    · rfl
    · simp [updFirst_length p f ds]

theorem updFirst_mem_rev (p : InteractionDoc → Bool) (f : InteractionDoc → InteractionDoc) :
    ∀ l, ∀ x ∈ updFirst p f l, ∃ y ∈ l, x = y ∨ x = f y := by
  intro l
  induction l with
  | nil => intro x hx; cases hx
  | cons d ds ih =>
    intro x hx
    rw [updFirst] at hx
    split at hx
    · rcases List.mem_cons.mp hx with rfl | hx
      · exact ⟨d, List.mem_cons_self d ds, Or.inr rfl⟩
      · exact ⟨x, List.mem_cons_of_mem d hx, Or.inl rfl⟩
    · rcases List.mem_cons.mp hx with rfl | hx
      · exact ⟨x, List.mem_cons_self x ds, Or.inl rfl⟩
      · obtain ⟨y, hy, hxy⟩ := ih x hx
        exact ⟨y, List.mem_cons_of_mem d hy, hxy⟩

theorem updFirst_mem_image (p : InteractionDoc → Bool) (f : InteractionDoc → InteractionDoc) :
    ∀ l, ∀ d ∈ l, ∃ d2 ∈ updFirst p f l, d2 = d ∨ d2 = f d := by
  intro l
  induction l with
  | nil => intro d hd; cases hd
  | cons a l ih =>
    intro d hd
    rw [updFirst]
    rcases List.mem_cons.mp hd with rfl | hd
    · split
      · exact ⟨f d, List.mem_cons_self _ _, Or.inr rfl⟩
      · exact ⟨d, List.mem_cons_self _ _, Or.inl rfl⟩
    · split
      · exact ⟨d, List.mem_cons_of_mem _ hd, Or.inl rfl⟩
      · obtain ⟨d2, hd2, hor⟩ := ih d hd
        exact ⟨d2, List.mem_cons_of_mem _ hd2, hor⟩

theorem tripleEq_applyUpdate_left (req : InteractionCreate) (now : Nat)
    (a b : InteractionDoc) : tripleEq (applyUpdate req now a) b ↔ tripleEq a b :=
  Iff.rfl

theorem updFirst_pairwise (req : InteractionCreate) (now : Nat)
    (p : InteractionDoc → Bool) :
    ∀ l, distinctTriples l → distinctTriples (updFirst p (applyUpdate req now) l) := by
  intro l
  induction l with
  | nil => intro _; exact List.Pairwise.nil
  | cons d ds ih =>
    intro h
    obtain ⟨hd, hds⟩ := List.pairwise_cons.mp h
    rw [updFirst]
    split
    · exact List.pairwise_cons.mpr ⟨fun b hb => hd b hb, hds⟩
    · refine List.pairwise_cons.mpr ⟨?_, ih hds⟩
      intro b hb
      obtain ⟨y, hy, hby⟩ := updFirst_mem_rev p (applyUpdate req now) ds b hb
      intro hc
      apply hd y hy
      rcases hby with hby | hby
      · rw [hby] at hc; exact hc
      · rw [hby] at hc; exact hc

/-- C10: starting from an empty collection, any sequence of
`create_interaction` calls keeps at most one document per
`(user_id, experience_id, interaction_type)` triple; a call matching an
existing triple updates that document in place (the collection size is
unchanged) while a non-matching call inserts exactly one document; and
across any single call every stored document keeps its triple, keeps
`rating` unless the request carries one, and never has a set
booked/completed/liked/saved_to_wishlist flag cleared. -/
theorem create_interaction_props :
    (∀ calls : List (String × InteractionCreate × Nat),
      distinctTriples (calls.foldl
        (fun st c => create_interaction st c.1 c.2.1 c.2.2) [])) ∧
    (∀ (store : List InteractionDoc) (user_id : String) (req : InteractionCreate)
        (now : Nat), distinctTriples store →
      distinctTriples (create_interaction store user_id req now) ∧
      ((store.any fun d => decide (sameTriple d user_id req)) = true →
        (create_interaction store user_id req now).length = store.length) ∧
      ((store.any fun d => decide (sameTriple d user_id req)) = false →
        (create_interaction store user_id req now).length = store.length + 1) ∧
      (∀ d ∈ store, ∃ d2 ∈ create_interaction store user_id req now,
        d2.user_id = d.user_id ∧ d2.experience_id = d.experience_id ∧
        d2.interaction_type = d.interaction_type ∧
        (d.booked = true → d2.booked = true) ∧
        (d.completed = true → d2.completed = true) ∧
        (d.liked = true → d2.liked = true) ∧
        (d.saved_to_wishlist = true → d2.saved_to_wishlist = true) ∧
        (d2.rating = d.rating ∨ (req.rating.isSome ∧ d2.rating = req.rating)))) := by
  have step : ∀ (store : List InteractionDoc) (user_id : String)
      (req : InteractionCreate) (now : Nat), distinctTriples store →
      distinctTriples (create_interaction store user_id req now) := by
    intro store user_id req now h
    rw [create_interaction]
    split
    · exact updFirst_pairwise req now _ store h
    case isFalse hany =>
      rw [distinctTriples, List.pairwise_append]
      refine ⟨h, List.pairwise_singleton _ _, ?_⟩
      intro a ha b hb
      rw [List.mem_singleton] at hb
      subst hb
      intro hc
      apply hany
      rw [List.any_eq_true]
      exact ⟨a, ha, decide_eq_true hc⟩
  constructor
  · intro calls
    have : ∀ (cs : List (String × InteractionCreate × Nat))
        (st : List InteractionDoc), distinctTriples st →
        distinctTriples (cs.foldl
          (fun st c => create_interaction st c.1 c.2.1 c.2.2) st) := by
      intro cs
      induction cs with
      | nil => intro st h; exact h
      | cons c cs ih => intro st h; exact ih _ (step st c.1 c.2.1 c.2.2 h)
    exact this calls [] List.Pairwise.nil
  · intro store user_id req now h
    refine ⟨step store user_id req now h, ?_, ?_, ?_⟩
    · intro hany
      rw [create_interaction, if_pos hany]
      exact updFirst_length _ _ store
    · intro hany
      rw [create_interaction, if_neg (by rw [hany]; exact Bool.false_ne_true)]
      simp
    · intro d hd
      rw [create_interaction]
      split
      · obtain ⟨d2, hd2, hor⟩ :=
          updFirst_mem_image (fun d => decide (sameTriple d user_id req))
            (applyUpdate req now) store d hd
        refine ⟨d2, hd2, ?_⟩
        rcases hor with rfl | rfl
        · exact ⟨rfl, rfl, rfl, fun hb => hb, fun hb => hb, fun hb => hb,
            fun hb => hb, Or.inl rfl⟩
        · refine ⟨rfl, rfl, rfl, ?_, ?_, ?_, ?_, ?_⟩
          · intro hb; simp [applyUpdate, hb]
          · intro hb; simp [applyUpdate, hb]
          · intro hb; simp [applyUpdate, hb]
          · intro hb; simp [applyUpdate, hb]
          · by_cases hr : req.rating.isSome
            · exact Or.inr ⟨hr, by simp [applyUpdate, hr]⟩
            · exact Or.inl (by simp [applyUpdate, hr])
      · exact ⟨d, List.mem_append_left _ hd, rfl, rfl, rfl, fun hb => hb,
          fun hb => hb, fun hb => hb, fun hb => hb, Or.inl rfl⟩

/-- Witness for `create_interaction_props` at a concrete store and
request: a second `view` interaction for the same pair updates in place. -/
theorem create_interaction_props_witness :
    distinctTriples (create_interaction
      [⟨"u1", "e1", "view", none, false, false, false, false, 0, 0⟩]
      "u1" ⟨"e1", "view", some 4, true, false, false, false⟩ 1) ∧
    (create_interaction
      [⟨"u1", "e1", "view", none, false, false, false, false, 0, 0⟩]
      "u1" ⟨"e1", "view", some 4, true, false, false, false⟩ 1).length = 1 :=
  ⟨((create_interaction_props).2
      [⟨"u1", "e1", "view", none, false, false, false, false, 0, 0⟩]
      "u1" ⟨"e1", "view", some 4, true, false, false, false⟩ 1 (by decide)).1,
   (((create_interaction_props).2
      [⟨"u1", "e1", "view", none, false, false, false, false, 0, 0⟩]
      "u1" ⟨"e1", "view", some 4, true, false, false, false⟩ 1 (by decide)).2.1
      (by decide))⟩

/-! ## Recommendation cache discipline
(`services/interaction_service.py` create/delete invalidation,
`services/recommendation_service.py` cache read/write)

The Redis keyspace `recommendations:{user_id}:{top_k}` is modelled as a
list of `CacheEntry` tagged with the logical time of the write; the
operations are the three that touch it.  The cache collaborator is assumed
to honour its `get`/`setex`/`keys`/`delete` contract (the source's
`try/except` degradation on a cache outage is outside this model). -/

/-- One externally triggered operation. -/
inductive RecOp where
  | create (user : String)
  | deleteI (user : String)
  | request (user : String) (topk : Nat)
  deriving DecidableEq, Repr

/-- A cached recommendation response: key `(user, topk)` plus the logical
time at which it was written. -/
structure CacheEntry where
  user : String
  topk : Nat
  writtenAt : Nat
  deriving DecidableEq, Repr

/-- Where a served response came from. -/
inductive Served where
  | fromCache (writtenAt : Nat)
  | computed
  deriving DecidableEq, Repr

/-- The `redis.delete(*redis.keys(f"recommendations:{user_id}:*"))` call in
`create_interaction` / `delete_interaction`: drops every entry of that
user, across all `top_k`. -/
def invalidateUser (cache : List CacheEntry) (u : String) : List CacheEntry :=
  cache.filter fun e => !(e.user == u)

/-- The cache-hit check of `get_recommendations`: the entry at key
`recommendations:{u}:{k}`, if present. -/
def cacheLookup (cache : List CacheEntry) (u : String) (k : Nat) : Option CacheEntry :=
  cache.find? fun e => e.user == u && e.topk == k

/-- One step of the system at logical time `t`: interactions invalidate
the user's whole cache slice right after the write; a request is served
from the cache on a hit and otherwise recomputes and writes a fresh entry
(`_cache_recommendations`). -/
def recStep (t : Nat) (cache : List CacheEntry) :
    RecOp → List CacheEntry × Option (Nat × String × Nat × Served)
  | RecOp.create u => (invalidateUser cache u, none)
  | RecOp.deleteI u => (invalidateUser cache u, none)
  | RecOp.request u k =>
    match cacheLookup cache u k with
    | some e => (cache, some (t, u, k, Served.fromCache e.writtenAt))
    | none => (⟨u, k, t⟩ :: cache, some (t, u, k, Served.computed))

/-- Run a list of timestamped operations, returning the log of served
recommendation responses. -/
def runLog : List (Nat × RecOp) → List CacheEntry → List (Nat × String × Nat × Served)
  | [], _ => []
  | p :: rest, cache =>
    match recStep p.1 cache p.2 with
    | (cache2, some s) => s :: runLog rest cache2
    | (cache2, none) => runLog rest cache2

theorem runLog_no_stale (l : List (Nat × RecOp)) (cache : List CacheEntry)
    (P : String → Nat → Prop)
    (hPl : ∀ v j, P v j → ∀ q ∈ l, j < q.1)
    (hl : l.Pairwise fun a b => a.1 < b.1)
    (hcache : ∀ e ∈ cache,
      (∀ q ∈ l, e.writtenAt < q.1) ∧ ∀ j, P e.user j → j < e.writtenAt) :
    ∀ t u k w, (t, u, k, Served.fromCache w) ∈ runLog l cache →
      ∀ i, i < t →
        (P u i ∨ (i, RecOp.create u) ∈ l ∨ (i, RecOp.deleteI u) ∈ l) →
        i < w := by
  induction l generalizing cache P with
  | nil =>
    intro t u k w hmem
    cases hmem
  | cons p rest ih =>
    obtain ⟨t0, op⟩ := p
    obtain ⟨hhead, htail⟩ := List.pairwise_cons.mp hl
    intro t u k w hmem i hit hsrc
    cases op with
    | create u0 =>
      rw [runLog, recStep] at hmem
      refine ih (invalidateUser cache u0) (fun v j => P v j ∨ (v = u0 ∧ j = t0))
        ?_ htail ?_ t u k w hmem i hit ?_
      · rintro v j (hp | ⟨_, rfl⟩) q hq
        · exact hPl v j hp q (List.mem_cons_of_mem _ hq)
        · exact hhead q hq
      · intro e he
        have he2 := List.mem_of_mem_filter he
        have hne : e.user ≠ u0 := by
          have := List.of_mem_filter he
          simpa using this
        refine ⟨fun q hq => (hcache e he2).1 q (List.mem_cons_of_mem _ hq), ?_⟩
        rintro j (hp | ⟨heq, rfl⟩)
        · exact (hcache e he2).2 j hp
        · exact absurd heq hne
      · rcases hsrc with hp | hc | hd
        · exact Or.inl (Or.inl hp)
        · rcases List.mem_cons.mp hc with heq | h
          · have h2 : i = t0 ∧ u = u0 := by simpa using heq
            exact Or.inl (Or.inr ⟨h2.2, h2.1⟩)
          · exact Or.inr (Or.inl h)
        · rcases List.mem_cons.mp hd with heq | h
          · exact absurd heq (by simp)
          · exact Or.inr (Or.inr h)
    | deleteI u0 =>
      rw [runLog, recStep] at hmem
      refine ih (invalidateUser cache u0) (fun v j => P v j ∨ (v = u0 ∧ j = t0))
        ?_ htail ?_ t u k w hmem i hit ?_
      · rintro v j (hp | ⟨_, rfl⟩) q hq
        · exact hPl v j hp q (List.mem_cons_of_mem _ hq)
        · exact hhead q hq
      · intro e he
        have he2 := List.mem_of_mem_filter he
        have hne : e.user ≠ u0 := by
          have := List.of_mem_filter he
          simpa using this
        refine ⟨fun q hq => (hcache e he2).1 q (List.mem_cons_of_mem _ hq), ?_⟩
        rintro j (hp | ⟨heq, rfl⟩)
        · exact (hcache e he2).2 j hp
        · exact absurd heq hne
      · rcases hsrc with hp | hc | hd
        · exact Or.inl (Or.inl hp)
        · rcases List.mem_cons.mp hc with heq | h
          · exact absurd heq (by simp)
          · exact Or.inr (Or.inl h)
        · rcases List.mem_cons.mp hd with heq | h
          · have h2 : i = t0 ∧ u = u0 := by simpa using heq
            exact Or.inl (Or.inr ⟨h2.2, h2.1⟩)
          · exact Or.inr (Or.inr h)
    | request u0 k0 =>
      rw [runLog, recStep] at hmem
      have hrecsrc : P u i ∨ (i, RecOp.create u) ∈ rest ∨ (i, RecOp.deleteI u) ∈ rest := by
        rcases hsrc with hp | hc | hd
        · exact Or.inl hp
        · rcases List.mem_cons.mp hc with heq | h
          · exact absurd heq (by simp)
          · exact Or.inr (Or.inl h)
        · rcases List.mem_cons.mp hd with heq | h
          · exact absurd heq (by simp)
          · exact Or.inr (Or.inr h)
      cases hfind : cacheLookup cache u0 k0 with
      | some e =>
        rw [hfind] at hmem
        rcases List.mem_cons.mp hmem with heq | hrest
        · have h2 : t = t0 ∧ u = u0 ∧ k = k0 ∧ w = e.writtenAt := by simpa using heq
          obtain ⟨ht, hu, hk, hw⟩ := h2
          have heu : e.user = u0 ∧ e.topk = k0 := by
            have hfe := List.find?_some hfind
            simpa using hfe
          rcases hrecsrc with hp | hc | hd
          · have h3 := (hcache e (List.mem_of_find?_eq_some hfind)).2 i
              (by rw [heu.1, ← hu]; exact hp)
            omega
          · have h3 := hhead _ hc
            simp only at h3
            omega
          · have h3 := hhead _ hd
            simp only at h3
            omega
        · refine ih cache P ?_ htail ?_ t u k w hrest i hit hrecsrc
          · intro v j hp q hq
            exact hPl v j hp q (List.mem_cons_of_mem _ hq)
          · intro e2 he2
            exact ⟨fun q hq => (hcache e2 he2).1 q (List.mem_cons_of_mem _ hq),
              (hcache e2 he2).2⟩
      | none =>
        rw [hfind] at hmem
        rcases List.mem_cons.mp hmem with heq | hrest
        · exact absurd heq (by simp)
        · refine ih (⟨u0, k0, t0⟩ :: cache) P ?_ htail ?_ t u k w hrest i hit hrecsrc
          · intro v j hp q hq
            exact hPl v j hp q (List.mem_cons_of_mem _ hq)
          · intro e2 he2
            rcases List.mem_cons.mp he2 with rfl | he2
            · exact ⟨fun q hq => hhead q hq,
                fun j hp => hPl _ j hp (t0, RecOp.request u0 k0) (List.mem_cons_self _ _)⟩
            · exact ⟨fun q hq => (hcache e2 he2).1 q (List.mem_cons_of_mem _ hq),
                (hcache e2 he2).2⟩

/-- C9: in every execution trace starting from an empty cache, if a
recommendation request for user `u` at time `t` is served from a cache
entry written at time `w`, then every `create_interaction` or successful
`delete_interaction` for `u` that happened before `t` happened strictly
before `w`: the write invalidated all of `u`'s entries (across all
`top_k`), so no response is ever served from a cache entry written before
the user's latest interaction write. -/
theorem cache_never_serves_stale (ops : List RecOp) :
    ∀ t u k w, (t, u, k, Served.fromCache w) ∈ runLog ops.enum [] →
      ∀ i, i < t →
        ((i, RecOp.create u) ∈ ops.enum ∨ (i, RecOp.deleteI u) ∈ ops.enum) →
        i < w := by
  intro t u k w hmem i hit hsrc
  refine runLog_no_stale ops.enum [] (fun _ _ => False) ?_ ?_ ?_ t u k w hmem i hit ?_
  · intro v j h
    cases h
  · exact List.pairwise_map.mp (by rw [List.enum_map_fst]; exact List.pairwise_lt_range _)
  · intro e he
    cases he
  · rcases hsrc with h | h
    · exact Or.inr (Or.inl h)
    · exact Or.inr (Or.inr h)

/-- Concrete trace for the witness: two requests (miss then hit), an
interaction write, then two more requests (miss then hit). -/
def c9ops : List RecOp :=
  [RecOp.request "x" 5, RecOp.request "x" 5, RecOp.create "x",
   RecOp.request "x" 5, RecOp.request "x" 5]

/-- Witness for `cache_never_serves_stale`: in the concrete trace the
request at time 4 is served from the entry written at time 3, and the
interaction write at time 2 indeed precedes that entry's write. -/
theorem cache_never_serves_stale_witness :
    (4, "x", 5, Served.fromCache 3) ∈ runLog c9ops.enum [] ∧ 2 < 3 :=
  ⟨by decide,
   cache_never_serves_stale c9ops 4 "x" 5 3 (by decide) 2 (by decide)
     (Or.inl (by decide))⟩

end BeAI
